import Mathlib

/-!
Verification development for the BIO NER annotation tool
(`bio_annotator.py`, `config.py`, `main.py`).

Python strings are modelled as Lean `String` (a structure holding a
`List Char`), matching Python's view of a string as a sequence of code
points.  Python lists are Lean `List`s.  The tkinter text widget's
per-color character tagging is modelled as a boolean state
`color → index → Bool` on a single line.  Byte streams are `List Nat`.
-/

namespace NERTool

/-- Python `str.upper()` (models `LABEL_CONFIG[i][1].upper()` in
`bio_annotator.py` line 157/302; identity on the Chinese label names). -/
def pyUpper (s : String) : String := String.mk (s.data.map Char.toUpper)

/-- `LABEL_CONFIG` from `config.py`: (color, button label, BIO tag name).
Entry 0 is the sentinel clear label. -/
def LABEL_CONFIG : List (String × String × Option String) :=
  [("white", "清除选中标注", none),
   ("red",   "电压等级", some "VOLTAGE"),
   ("yellow", "一级间隔", some "INTERVAL_1"),
   ("magenta", "二级间隔", some "INTERVAL_2"),
   ("Cyan",  "支路间隔", some "BRANCH"),
   ("Lime",  "编号设备", some "DEVICE_ID"),
   ("pink",  "装置类型", some "DEVICE_TYPE"),
   ("green", "套数", some "SET_COUNT"),
   ("orange", "装置型号", some "DEVICE_MODEL"),
   ("purple", "原子事件", some "ATOMIC_EVENT"),
   ("brown", "补充描述", some "DESCRIPTION")]

/-- `LABEL_CONFIG[i][2] or LABEL_CONFIG[i][1].upper()`
(`bio_annotator.py` lines 157 and 302).  Python `or` falls through on
`None`; every non-sentinel entry carries an explicit tag name. -/
def bioTagName (cfg : String × String × Option String) : String :=
  cfg.2.2.getD (pyUpper cfg.2.1)

/-- The non-sentinel label colors (`range(1, len(LABEL_CONFIG))`). -/
def catalogColors : List String := (LABEL_CONFIG.drop 1).map (fun cfg => cfg.1)

/-- `bio_to_color` built in `load_from_csv` lines 299-303: maps each BIO tag
name to its display color, for `label_index` in `range(1, len(LABEL_CONFIG))`. -/
def bio_to_color : List (String × String) :=
  (LABEL_CONFIG.drop 1).map (fun cfg => (bioTagName cfg, cfg.1))

/-- Dictionary membership/access `tag_name in bio_to_color` /
`bio_to_color[tag_name]` (lines 370-371). -/
def lookupColor (tagName : String) : Option String :=
  bio_to_color.lookup tagName

/-- A stored annotation on one line: half-open character range plus the
display color that keys it in the text widget (`tag_ranges(color)`). -/
structure Span where
  start : Nat
  stop : Nat
  color : String
deriving DecidableEq, Repr

/-- The `for col in range(lo, lo + cnt)` loop body of `_apply_bio_tags`
(line 228-229): set `cnt` consecutive positions starting at `lo` to `v`. -/
def setRange (arr : List String) (lo : Nat) : Nat → String → List String
  | 0, _ => arr
  | cnt + 1, v => setRange (arr.set lo v) (lo + 1) cnt v

/-- `BioAnnotator._apply_bio_tags` (lines 209-230): write `S-` for a
length-1 range, otherwise `B-`, interior `I-`s, and a final `E-`.
(In-bounds usage: `save_to_bio` guards indices before calling, lines
184-189; Python negative-index corner cases are outside every claim.) -/
def apply_bio_tags (line : List String) (start_col end_col : Nat)
    (tag_name : String) : List String :=
  if end_col - start_col = 1 then
    line.set start_col ("S-" ++ tag_name)
  else
    let l1 := line.set start_col ("B-" ++ tag_name)
    let l2 := setRange l1 (start_col + 1) ((end_col - 1) - (start_col + 1)) ("I-" ++ tag_name)
    l2.set (end_col - 1) ("E-" ++ tag_name)

/-- One non-sentinel catalog entry's pass in `save_to_bio` (lines 155-192),
restricted to a single line: apply `_apply_bio_tags` for every stored
range carrying that entry's color. -/
def encodeStep (spans : List Span) (arr : List String)
    (cfg : String × String × Option String) : List String :=
  (spans.filter (fun sp => sp.color == cfg.1)).foldl
    (fun a sp => apply_bio_tags a sp.start sp.stop (bioTagName cfg)) arr

/-- The single-line tag-array encoder of `save_to_bio` (lines 152-192):
start from all-`'O'` (line 152) and run every non-sentinel catalog entry's
pass over the stored spans. -/
def encodeLine (n : Nat) (spans : List Span) : List String :=
  (LABEL_CONFIG.drop 1).foldl (encodeStep spans) (List.replicate n "O")

/-- Python `tag.split('-', 1)` restricted to the first separator, on
character lists: split at the first `'-'`, or `none` when absent
(models the `'-' in tag` guard, line 366). -/
def splitDashAux : List Char → Option (List Char × List Char)
  | [] => none
  | c :: cs =>
    if c = '-' then some ([], cs)
    else
      match splitDashAux cs with
      | none => none
      | some pr => some (c :: pr.1, pr.2)

/-- `tag.split('-', 1)` on strings (line 367), guarded by `'-' in tag`. -/
def splitDash (s : String) : Option (String × String) :=
  match splitDashAux s.data with
  | none => none
  | some pr => some (String.mk pr.1, String.mk pr.2)

/-- The inner `while j < len(line_tags)` scan of `load_from_csv`
(lines 381-392): starting at absolute index `j` with current exclusive end
`endChar`, consume `I-<name>` tags; an `E-<name>` closes the run and is
consumed; anything else breaks.  Returns the new scan index, the final
exclusive end, and the unconsumed suffix. -/
def scanEntity (tagName : String) (j endChar : Nat) :
    List String → Nat × Nat × List String
  | [] => (j, endChar, [])
  | t :: rest =>
    if t = "I-" ++ tagName then scanEntity tagName (j + 1) (j + 1) rest
    else if t = "E-" ++ tagName then (j + 1, j + 1, rest)
    else (j, endChar, t :: rest)

theorem scanEntity_suffix_length (tagName : String) :
    ∀ (l : List String) (j endChar : Nat),
      (scanEntity tagName j endChar l).2.2.length ≤ l.length := by
  intro l
  induction l with
  | nil => intro j endChar; simp [scanEntity]
  | cons t rest ih =>
    intro j endChar
    simp only [scanEntity]
    by_cases h1 : t = "I-" ++ tagName
    · simp only [h1, if_pos rfl]
      exact Nat.le_succ_of_le (ih (j + 1) (j + 1))
    · by_cases h2 : t = "E-" ++ tagName
      · subst h2; rw [if_neg h1]; simp
      · simp [h1, h2]

/-- The `while i < len(line_tags)` decode loop of `load_from_csv`
(lines 357-409), at absolute index `i`: skip `'O'`, skip tags without `'-'`
or with an unknown tag name, emit a span for `S-` directly and for `B-`
after the forward scan (the `tag_add` of lines 399-401 runs for every `B`
or `S` tag, even a dangling `B-`), and skip orphaned `I-`/`E-`. -/
def decodeLoop : List String → Nat → List Span
  | [], _ => []
  | tag :: rest, i =>
    if tag = "O" then decodeLoop rest (i + 1)
    else
      match splitDash tag with
      | none => decodeLoop rest (i + 1)
      | some pn =>
        match lookupColor pn.2 with
        | none => decodeLoop rest (i + 1)
        | some color =>
          if pn.1 = "B" then
            ⟨i, (scanEntity pn.2 (i + 1) (i + 1) rest).2.1, color⟩ ::
              decodeLoop (scanEntity pn.2 (i + 1) (i + 1) rest).2.2
                (scanEntity pn.2 (i + 1) (i + 1) rest).2.1
          else if pn.1 = "S" then
            ⟨i, i + 1, color⟩ :: decodeLoop rest (i + 1)
          else decodeLoop rest (i + 1)
termination_by l _ => l.length
decreasing_by
  all_goals simp only [List.length_cons]
  all_goals first
    | exact Nat.lt_succ_of_le (scanEntity_suffix_length _ _ _ _)
    | omega

/-- The span-reconstruction half of `load_from_csv` on one line's tag
array: the list of `tag_add` calls it performs, in order. -/
def decodeTags (tags : List String) : List Span := decodeLoop tags 0

/-! ## Pointwise characterisation of the encoder -/

/-- The tag a span `[s, e)` with tag name `name` places at position `i`
of its range. -/
def pieceTag (s e : Nat) (name : String) (i : Nat) : String :=
  if e - s = 1 then "S-" ++ name
  else if i = s then "B-" ++ name
  else if i = e - 1 then "E-" ++ name
  else "I-" ++ name

theorem setRange_length (v : String) :
    ∀ (cnt : Nat) (arr : List String) (lo : Nat),
      (setRange arr lo cnt v).length = arr.length := by
  intro cnt
  induction cnt with
  | zero => intro arr lo; rfl
  | succ k ih => intro arr lo; simp [setRange, ih, List.length_set]

theorem setRange_get_out (v : String) :
    ∀ (cnt : Nat) (arr : List String) (lo j : Nat),
      (j < lo ∨ lo + cnt ≤ j) → (setRange arr lo cnt v)[j]? = arr[j]? := by
  intro cnt
  induction cnt with
  | zero => intro arr lo j _; rfl
  | succ k ih =>
    intro arr lo j h
    have hne : lo ≠ j := by omega
    rw [setRange, ih (arr.set lo v) (lo + 1) j (by omega),
      List.getElem?_set_ne hne]

theorem setRange_get_in (v : String) :
    ∀ (cnt : Nat) (arr : List String) (lo j : Nat),
      lo ≤ j → j < lo + cnt → j < arr.length →
      (setRange arr lo cnt v)[j]? = some v := by
  intro cnt
  induction cnt with
  | zero => intro arr lo j h1 h2; omega
  | succ k ih =>
    intro arr lo j h1 h2 h3
    rw [setRange]
    by_cases hj : j = lo
    · subst hj
      rw [setRange_get_out v k _ _ _ (Or.inl (by omega)),
        List.getElem?_set_self h3]
    · exact ih (arr.set lo v) (lo + 1) j (by omega) (by omega)
        (by rw [List.length_set]; exact h3)

theorem apply_bio_tags_length (arr : List String) (s e : Nat) (name : String) :
    (apply_bio_tags arr s e name).length = arr.length := by
  unfold apply_bio_tags
  by_cases h : e - s = 1
  · simp [h, List.length_set]
  · simp [h, List.length_set, setRange_length]

theorem apply_bio_tags_get_out (arr : List String) (s e : Nat) (name : String)
    (j : Nat) (hse : s < e) (hj : j < s ∨ e ≤ j) :
    (apply_bio_tags arr s e name)[j]? = arr[j]? := by
  unfold apply_bio_tags
  by_cases h : e - s = 1
  · rw [if_pos h, List.getElem?_set_ne (by omega)]
  · rw [if_neg h, List.getElem?_set_ne (by omega),
      setRange_get_out _ _ _ _ _ (by omega), List.getElem?_set_ne (by omega)]

theorem apply_bio_tags_get_in (arr : List String) (s e : Nat) (name : String)
    (j : Nat) (hse : s < e) (he : e ≤ arr.length) (h1 : s ≤ j) (h2 : j < e) :
    (apply_bio_tags arr s e name)[j]? = some (pieceTag s e name j) := by
  unfold apply_bio_tags pieceTag
  by_cases h : e - s = 1
  · have hj : j = s := by omega
    subst hj
    rw [if_pos h, if_pos h, List.getElem?_set_self (by omega)]
  · rw [if_neg h, if_neg h]
    by_cases hE : j = e - 1
    · subst hE
      rw [if_neg (by omega), if_pos rfl,
        List.getElem?_set_self (by rw [setRange_length, List.length_set]; omega)]
    · rw [List.getElem?_set_ne (by omega)]
      by_cases hB : j = s
      · subst hB
        rw [if_pos rfl, setRange_get_out _ _ _ _ _ (Or.inl (by omega)),
          List.getElem?_set_self (by omega)]
      · rw [if_neg hB, if_neg hE,
          setRange_get_in _ _ _ _ _ (by omega) (by omega)
            (by rw [List.length_set]; omega)]

/-- Two spans occupy disjoint character ranges. -/
def Disj (a b : Span) : Prop := a.stop ≤ b.start ∨ b.stop ≤ a.start

/-- Span `sp` covers character position `i`. -/
def coversB (sp : Span) (i : Nat) : Bool :=
  decide (sp.start ≤ i) && decide (i < sp.stop)

theorem coversB_eq_true {sp : Span} {i : Nat} :
    coversB sp i = true ↔ sp.start ≤ i ∧ i < sp.stop := by
  simp [coversB]

theorem covers_unique {l : List Span} (hp : l.Pairwise Disj) {sp sq : Span}
    {i : Nat} (hsp : sp ∈ l) (hsq : sq ∈ l)
    (hc1 : coversB sp i = true) (hc2 : coversB sq i = true) : sp = sq := by
  induction l with
  | nil => cases hsp
  | cons hd t ih =>
    rw [List.pairwise_cons] at hp
    rw [coversB_eq_true] at hc1 hc2
    rcases List.mem_cons.mp hsp with h1 | h1 <;>
      rcases List.mem_cons.mp hsq with h2 | h2
    · rw [h1, h2]
    · exact absurd (hp.1 sq h2) (by subst h1; unfold Disj; omega)
    · exact absurd (hp.1 sp h1) (by subst h2; unfold Disj; omega)
    · exact ih hp.2 h1 h2

theorem find?_covers {l : List Span} (hp : l.Pairwise Disj) {sp : Span}
    {i : Nat} (hsp : sp ∈ l) (hc : coversB sp i = true) :
    l.find? (fun s => coversB s i) = some sp := by
  induction l with
  | nil => cases hsp
  | cons hd t ih =>
    rw [List.pairwise_cons] at hp
    rw [List.find?_cons]
    by_cases hhd : coversB hd i = true
    · rw [hhd]
      rcases List.mem_cons.mp hsp with h1 | h1
      · rw [h1]
      · exfalso
        have hd2 := hp.1 sp h1
        rw [coversB_eq_true] at hc hhd
        unfold Disj at hd2
        omega
    · rw [Bool.not_eq_true] at hhd
      rw [hhd]
      rcases List.mem_cons.mp hsp with h1 | h1
      · subst h1; rw [hc] at hhd; cases hhd
      · exact ih hp.2 h1

theorem foldApply_length (name : String) :
    ∀ (l : List Span) (arr : List String),
      (l.foldl (fun a sp => apply_bio_tags a sp.start sp.stop name) arr).length
        = arr.length := by
  intro l
  induction l with
  | nil => intro arr; rfl
  | cons hd t ih =>
    intro arr
    rw [List.foldl_cons, ih, apply_bio_tags_length]

theorem foldApply_get_out (name : String) (i : Nat) :
    ∀ (l : List Span) (arr : List String),
      (∀ sp ∈ l, sp.start < sp.stop) → (∀ sp ∈ l, coversB sp i = false) →
      (l.foldl (fun a sp => apply_bio_tags a sp.start sp.stop name) arr)[i]?
        = arr[i]? := by
  intro l
  induction l with
  | nil => intro arr _ _; rfl
  | cons hd t ih =>
    intro arr hb hc
    have hhd := hc hd (List.mem_cons_self hd t)
    simp only [coversB, Bool.and_eq_false_iff, decide_eq_false_iff_not] at hhd
    rw [List.foldl_cons, ih _ (fun sp h => hb sp (List.mem_cons_of_mem _ h))
        (fun sp h => hc sp (List.mem_cons_of_mem _ h)),
      apply_bio_tags_get_out _ _ _ _ _ (hb hd (List.mem_cons_self hd t))
        (by omega)]

theorem foldApply_get_in (name : String) (i : Nat) :
    ∀ (l : List Span) (arr : List String) (sp : Span),
      l.Pairwise Disj →
      (∀ s ∈ l, s.start < s.stop ∧ s.stop ≤ arr.length) →
      sp ∈ l → coversB sp i = true →
      (l.foldl (fun a sp => apply_bio_tags a sp.start sp.stop name) arr)[i]?
        = some (pieceTag sp.start sp.stop name i) := by
  intro l
  induction l with
  | nil => intro arr sp _ _ h; cases h
  | cons hd t ih =>
    intro arr sp hp hb hsp hc
    rw [List.pairwise_cons] at hp
    rw [List.foldl_cons]
    rcases List.mem_cons.mp hsp with h1 | h1
    · subst h1
      have hcov := coversB_eq_true.mp hc
      have hbs := hb sp (List.mem_cons_self sp t)
      rw [foldApply_get_out name i t _
          (fun s h => (hb s (List.mem_cons_of_mem _ h)).1)
          (fun s h => by
            have := hp.1 s h
            simp only [coversB, Bool.and_eq_false_iff, decide_eq_false_iff_not]
            unfold Disj at this
            omega),
        apply_bio_tags_get_in _ _ _ _ _ hbs.1 hbs.2 hcov.1 hcov.2]
    · exact ih _ sp hp.2
        (fun s h => by
          rw [apply_bio_tags_length]
          exact hb s (List.mem_cons_of_mem _ h))
        h1 hc

/-- The tag name a color resolves to through the catalog (the inverse
direction of the `bio_to_color` construction). -/
def colorToName (c : String) : String :=
  match (LABEL_CONFIG.drop 1).find? (fun cfg => cfg.1 == c) with
  | some cfg => bioTagName cfg
  | none => ""

/-- The tag that a disjoint span set places at position `i`: the covering
span's piece tag, or `"O"`. -/
def refTag (spans : List Span) (i : Nat) : String :=
  match spans.find? (fun sp => coversB sp i) with
  | some sp => pieceTag sp.start sp.stop (colorToName sp.color) i
  | none => "O"

theorem catalog_colors_nodup :
    ((LABEL_CONFIG.drop 1).map (fun c => c.1)).Nodup := by decide

theorem catalog_colorToName :
    ∀ cfg ∈ LABEL_CONFIG.drop 1, colorToName cfg.1 = bioTagName cfg := by decide

theorem catalog_lookup_colorToName :
    ∀ c ∈ catalogColors, lookupColor (colorToName c) = some c := by decide

theorem encodeStep_length (spans : List Span) (arr : List String)
    (cfg : String × String × Option String) :
    (encodeStep spans arr cfg).length = arr.length :=
  foldApply_length _ _ _

theorem encFold_length (spans : List Span) :
    ∀ (cfgs : List (String × String × Option String)) (arr : List String),
      (cfgs.foldl (encodeStep spans) arr).length = arr.length := by
  intro cfgs
  induction cfgs with
  | nil => intro arr; rfl
  | cons c t ih => intro arr; rw [List.foldl_cons, ih, encodeStep_length]

theorem encFold_get_out (spans : List Span) (i : Nat)
    (hlt : ∀ sp ∈ spans, sp.start < sp.stop) :
    ∀ (cfgs : List (String × String × Option String)) (arr : List String),
      (∀ sp ∈ spans, sp.color ∈ cfgs.map (fun c => c.1) → coversB sp i = false) →
      (cfgs.foldl (encodeStep spans) arr)[i]? = arr[i]? := by
  intro cfgs
  induction cfgs with
  | nil => intro arr _; rfl
  | cons c t ih =>
    intro arr hc
    rw [List.foldl_cons,
      ih _ (fun sp h hm => hc sp h
        (by simp only [List.map_cons]; exact List.mem_cons_of_mem _ hm))]
    unfold encodeStep
    exact foldApply_get_out _ _ _ _
      (fun sp h => hlt sp (List.mem_filter.mp h).1)
      (fun sp h => by
        have hm := List.mem_filter.mp h
        exact hc sp hm.1 (by
          simp only [List.map_cons]
          exact List.mem_cons.mpr (Or.inl (beq_iff_eq.mp hm.2))))

theorem encFold_get_in (spans : List Span) (i : Nat) (sp : Span)
    (hp : spans.Pairwise Disj) :
    ∀ (cfgs : List (String × String × Option String)) (arr : List String)
      (cfg : String × String × Option String),
      (∀ s ∈ spans, s.start < s.stop ∧ s.stop ≤ arr.length) →
      (cfgs.map (fun c => c.1)).Nodup →
      cfg ∈ cfgs → sp ∈ spans → sp.color = cfg.1 → coversB sp i = true →
      (cfgs.foldl (encodeStep spans) arr)[i]?
        = some (pieceTag sp.start sp.stop (bioTagName cfg) i) := by
  intro cfgs
  induction cfgs with
  | nil => intro arr cfg _ _ h; cases h
  | cons c t ih =>
    intro arr cfg hb hnd hcfg hsp hcol hcov
    rw [List.map_cons, List.nodup_cons] at hnd
    rw [List.foldl_cons]
    rcases List.mem_cons.mp hcfg with h1 | h1
    · subst h1
      rw [encFold_get_out spans i (fun s h => (hb s h).1) t _
          (fun s hs hm => by
            rw [Bool.eq_false_iff]
            intro hcs
            have := covers_unique hp hs hsp hcs hcov
            subst this
            exact hnd.1 (hcol ▸ hm))]
      unfold encodeStep
      exact foldApply_get_in _ _ _ _ sp (hp.filter _)
        (fun s h => hb s (List.mem_filter.mp h).1)
        (List.mem_filter.mpr ⟨hsp, beq_iff_eq.mpr hcol⟩) hcov
    · exact ih _ cfg
        (fun s h => by rw [encodeStep_length]; exact hb s h)
        hnd.2 h1 hsp hcol hcov

/-- Pointwise description of the single-line encoder: position `i` holds
the covering span's piece tag, `"O"` when uncovered, nothing past `n`. -/
theorem encodeLine_get (n : Nat) (spans : List Span) (i : Nat)
    (hp : spans.Pairwise Disj)
    (hb : ∀ sp ∈ spans, sp.start < sp.stop ∧ sp.stop ≤ n)
    (hc : ∀ sp ∈ spans, sp.color ∈ catalogColors) :
    (encodeLine n spans)[i]? = if i < n then some (refTag spans i) else none := by
  by_cases hin : i < n
  · rw [if_pos hin]
    unfold encodeLine
    cases hfind : spans.find? (fun sp => coversB sp i) with
    | some sp =>
      have hsp := List.mem_of_find?_eq_some hfind
      have hcov := List.find?_some hfind
      have hcc := hc sp hsp
      unfold catalogColors at hcc
      rcases List.mem_map.mp hcc with ⟨cfg, hcfg, hceq⟩
      have href : refTag spans i
          = pieceTag sp.start sp.stop (colorToName sp.color) i := by
        unfold refTag
        rw [hfind]
      rw [href, ← hceq, catalog_colorToName cfg hcfg]
      exact encFold_get_in spans i sp hp _ _ cfg
        (by rw [List.length_replicate]; exact hb)
        catalog_colors_nodup hcfg hsp hceq.symm hcov
    | none =>
      have href : refTag spans i = "O" := by
        unfold refTag
        rw [hfind]
      rw [href, encFold_get_out spans i (fun s h => (hb s h).1) _ _
          (fun s hs _ => by
            rw [Bool.eq_false_iff]
            exact List.find?_eq_none.mp hfind s hs),
        List.getElem?_replicate, if_pos hin]
  · rw [if_neg hin]
    exact List.getElem?_eq_none (by
      unfold encodeLine
      rw [encFold_length, List.length_replicate]
      omega)

/-! ## The encoder output as a concatenation, and the decoder on it -/

/-- The tag block a single span contributes: `S-` alone, or
`B-`, interior `I-`s, `E-`. -/
def spanTags (sp : Span) : List String :=
  if sp.stop - sp.start = 1 then ["S-" ++ colorToName sp.color]
  else ("B-" ++ colorToName sp.color) ::
    (List.replicate (sp.stop - sp.start - 2) ("I-" ++ colorToName sp.color) ++
      ["E-" ++ colorToName sp.color])

/-- The tag array of a left-to-right sorted disjoint span list over
positions `[pos, n)`: gap of `O`s, span block, rest. -/
def wellFormed (pos n : Nat) : List Span → List String
  | [] => List.replicate (n - pos) "O"
  | sp :: rest =>
    List.replicate (sp.start - pos) "O" ++ (spanTags sp ++ wellFormed sp.stop n rest)

/-- The span list is sorted left-to-right, non-overlapping, nonempty
spans, all inside `[pos, n)`. -/
def SortedFrom (pos n : Nat) : List Span → Prop
  | [] => True
  | sp :: rest =>
    pos ≤ sp.start ∧ sp.start < sp.stop ∧ sp.stop ≤ n ∧ SortedFrom sp.stop n rest

theorem sortedFrom_bounds {n : Nat} :
    ∀ {l : List Span} {pos : Nat}, SortedFrom pos n l →
      ∀ sp ∈ l, pos ≤ sp.start ∧ sp.start < sp.stop ∧ sp.stop ≤ n := by
  intro l
  induction l with
  | nil => intro pos _ sp h; cases h
  | cons hd t ih =>
    intro pos hs sp hsp
    obtain ⟨ha, hb2, hc2, hd2⟩ := hs
    rcases List.mem_cons.mp hsp with h1 | h1
    · subst h1; exact ⟨ha, hb2, hc2⟩
    · have := ih hd2 sp h1
      exact ⟨by omega, this.2.1, this.2.2⟩

theorem sortedFrom_pairwise {n : Nat} :
    ∀ {l : List Span} {pos : Nat}, SortedFrom pos n l → l.Pairwise Disj := by
  intro l
  induction l with
  | nil => intro pos _; exact List.Pairwise.nil
  | cons hd t ih =>
    intro pos hs
    exact List.pairwise_cons.mpr
      ⟨fun sq hsq => Or.inl (sortedFrom_bounds hs.2.2.2 sq hsq).1,
       ih hs.2.2.2⟩

theorem spanTags_length {sp : Span} (h : sp.start < sp.stop) :
    (spanTags sp).length = sp.stop - sp.start := by
  unfold spanTags
  by_cases h1 : sp.stop - sp.start = 1
  · simp [h1]
  · simp only [h1, if_false, List.length_cons, List.length_append,
      List.length_replicate, List.length_nil]
    omega

theorem spanTags_get {sp : Span} (h : sp.start < sp.stop) (k : Nat)
    (hk : k < sp.stop - sp.start) :
    (spanTags sp)[k]?
      = some (pieceTag sp.start sp.stop (colorToName sp.color) (sp.start + k)) := by
  unfold spanTags pieceTag
  by_cases h1 : sp.stop - sp.start = 1
  · have hk0 : k = 0 := by omega
    subst hk0
    simp [h1]
  · rw [if_neg h1, if_neg h1]
    match k with
    | 0 => simp
    | k + 1 =>
      rw [List.getElem?_cons_succ, List.getElem?_append,
        if_neg (by omega : sp.start + (k + 1) = sp.start → False)]
      by_cases h2 : k < sp.stop - sp.start - 2
      · rw [if_pos (by rw [List.length_replicate]; omega),
          List.getElem?_replicate, if_pos h2,
          if_neg (by omega : sp.start + (k + 1) = sp.stop - 1 → False)]
      · rw [if_neg (by rw [List.length_replicate]; omega),
          List.length_replicate]
        have hkk : k - (sp.stop - sp.start - 2) = 0 := by omega
        rw [hkk]
        simp only [List.getElem?_cons_zero, Option.some.injEq]
        rw [if_pos (by omega : sp.start + (k + 1) = sp.stop - 1)]

theorem refTag_cons_out {sp : Span} {rest : List Span} {i : Nat}
    (h : coversB sp i = false) :
    refTag (sp :: rest) i = refTag rest i := by
  unfold refTag
  rw [List.find?_cons_of_neg _ (by rw [h]; exact Bool.false_ne_true)]

theorem wellFormed_get {n : Nat} :
    ∀ (l : List Span) (pos j : Nat), SortedFrom pos n l → pos ≤ n →
      (wellFormed pos n l)[j]?
        = if j < n - pos then some (refTag l (pos + j)) else none := by
  intro l
  induction l with
  | nil =>
    intro pos j _ _
    unfold wellFormed refTag
    rw [List.getElem?_replicate, List.find?_nil]
  | cons sp rest ih =>
    intro pos j hs hpn
    obtain ⟨hps, hlt, hsn, hrest⟩ := hs
    unfold wellFormed
    rw [List.getElem?_append]
    by_cases hj1 : j < sp.start - pos
    · rw [if_pos (by rw [List.length_replicate]; exact hj1),
        List.getElem?_replicate, if_pos hj1,
        if_pos (by omega : j < n - pos),
        refTag_cons_out (by simp only [coversB, Bool.and_eq_false_iff,
          decide_eq_false_iff_not]; omega)]
      have hnone : rest.find? (fun s => coversB s (pos + j)) = none := by
        rw [List.find?_eq_none]
        intro sq hsq
        have := sortedFrom_bounds hrest sq hsq
        simp only [coversB, Bool.and_eq_true, decide_eq_true_eq, not_and]
        omega
      unfold refTag
      rw [hnone]
    · rw [if_neg (by rw [List.length_replicate]; exact hj1),
        List.length_replicate, List.getElem?_append]
      by_cases hj2 : j - (sp.start - pos) < sp.stop - sp.start
      · rw [if_pos (by rw [spanTags_length hlt]; exact hj2),
          spanTags_get hlt _ hj2,
          if_pos (by omega : j < n - pos)]
        have hcov : coversB sp (pos + j) = true := by
          simp only [coversB, Bool.and_eq_true, decide_eq_true_eq]
          omega
        have hfind : (sp :: rest).find? (fun s => coversB s (pos + j))
            = some sp := List.find?_cons_of_pos _ hcov
        unfold refTag
        rw [hfind]
        have harith : sp.start + (j - (sp.start - pos)) = pos + j := by omega
        rw [harith]
      · rw [if_neg (by rw [spanTags_length hlt]; exact hj2),
          spanTags_length hlt,
          ih sp.stop (j - (sp.start - pos) - (sp.stop - sp.start)) hrest hsn]
        rw [refTag_cons_out (by simp only [coversB, Bool.and_eq_false_iff,
          decide_eq_false_iff_not]; omega)]
        have harith : sp.stop + (j - (sp.start - pos) - (sp.stop - sp.start))
            = pos + j := by omega
        rw [harith]
        by_cases hj3 : j < n - pos
        · rw [if_pos (by omega), if_pos hj3]
        · rw [if_neg (by omega), if_neg hj3]

/-- Under the round-trip hypotheses the encoder output is exactly the
well-formed concatenation shape. -/
theorem encodeLine_eq_wellFormed {n : Nat} {spans : List Span}
    (hs : SortedFrom 0 n spans)
    (hc : ∀ sp ∈ spans, sp.color ∈ catalogColors) :
    encodeLine n spans = wellFormed 0 n spans := by
  apply List.ext_getElem?
  intro j
  rw [encodeLine_get n spans j (sortedFrom_pairwise hs)
      (fun sp h => ⟨(sortedFrom_bounds hs sp h).2.1,
        (sortedFrom_bounds hs sp h).2.2⟩) hc,
    wellFormed_get spans 0 j hs (Nat.zero_le n)]
  simp

/-! ## String facts for the tag alphabet -/

theorem string_mk_data (s : String) : String.mk s.data = s := rfl

theorem mk_cons_ne {c d : Char} (hcd : c ≠ d) (s t : List Char) :
    String.mk (c :: s) ≠ String.mk (d :: t) := by
  intro h
  injection h with h2
  simp only [List.cons.injEq] at h2
  exact hcd h2.1

theorem tag_prefix_eq (c : Char) (name : String) :
    String.mk [c, '-'] ++ name = String.mk (c :: '-' :: name.data) := rfl

theorem splitDash_two (c : Char) (hc : c ≠ '-') (name : String) :
    splitDash (String.mk (c :: '-' :: name.data))
      = some (String.mk [c], name) := by
  simp [splitDash, splitDashAux, hc, string_mk_data]

theorem tagB_ne_O (name : String) : ("B-" ++ name) ≠ "O" :=
  mk_cons_ne (by decide) _ _

theorem tagS_ne_O (name : String) : ("S-" ++ name) ≠ "O" :=
  mk_cons_ne (by decide) _ _

theorem tagE_ne_I (name name2 : String) : ("E-" ++ name) ≠ ("I-" ++ name2) :=
  mk_cons_ne (by decide) _ _

theorem splitDash_B (name : String) :
    splitDash ("B-" ++ name) = some ("B", name) :=
  splitDash_two 'B' (by decide) name

theorem splitDash_S (name : String) :
    splitDash ("S-" ++ name) = some ("S", name) :=
  splitDash_two 'S' (by decide) name

/-! ## Decoder unfolding lemmas -/

theorem decodeLoop_nil (i : Nat) : decodeLoop [] i = [] := by
  simp [decodeLoop]

theorem decodeLoop_O (rest : List String) (i : Nat) :
    decodeLoop ("O" :: rest) i = decodeLoop rest (i + 1) := by
  simp [decodeLoop]

theorem decodeLoop_B {name color : String} (h : lookupColor name = some color)
    (rest : List String) (i : Nat) :
    decodeLoop (("B-" ++ name) :: rest) i
      = ⟨i, (scanEntity name (i + 1) (i + 1) rest).2.1, color⟩ ::
        decodeLoop (scanEntity name (i + 1) (i + 1) rest).2.2
          (scanEntity name (i + 1) (i + 1) rest).2.1 := by
  rw [decodeLoop, if_neg (tagB_ne_O name), splitDash_B name]
  simp [h]

theorem decodeLoop_S {name color : String} (h : lookupColor name = some color)
    (rest : List String) (i : Nat) :
    decodeLoop (("S-" ++ name) :: rest) i
      = ⟨i, i + 1, color⟩ :: decodeLoop rest (i + 1) := by
  rw [decodeLoop, if_neg (tagS_ne_O name), splitDash_S name]
  simp [h, show ("S" : String) ≠ "B" from by decide]

theorem decodeLoop_replicate_O :
    ∀ (k : Nat) (rest : List String) (i : Nat),
      decodeLoop (List.replicate k "O" ++ rest) i = decodeLoop rest (i + k) := by
  intro k
  induction k with
  | zero => intro rest i; simp
  | succ m ih =>
    intro rest i
    rw [List.replicate_succ, List.cons_append, decodeLoop_O, ih,
      show i + 1 + m = i + (m + 1) by omega]

/-! ## The forward scan on well-formed runs -/

theorem scanEntity_through (name : String) :
    ∀ (k j : Nat) (tail : List String),
      scanEntity name j j (List.replicate k ("I-" ++ name) ++ ("E-" ++ name) :: tail)
        = (j + k + 1, j + k + 1, tail) := by
  intro k
  induction k with
  | zero =>
    intro j tail
    rw [List.replicate_zero, List.nil_append, scanEntity,
      if_neg (tagE_ne_I name name), if_pos rfl]
  | succ m ih =>
    intro j tail
    rw [List.replicate_succ, List.cons_append, scanEntity, if_pos rfl,
      ih (j + 1) tail, show j + 1 + m + 1 = j + (m + 1) + 1 by omega]

theorem scanEntity_break (name : String) :
    ∀ (k j : Nat) (t : String) (rest : List String),
      t ≠ "I-" ++ name → t ≠ "E-" ++ name →
      scanEntity name j j (List.replicate k ("I-" ++ name) ++ t :: rest)
        = (j + k, j + k, t :: rest) := by
  intro k
  induction k with
  | zero =>
    intro j t rest h1 h2
    rw [List.replicate_zero, List.nil_append, scanEntity,
      if_neg h1, if_neg h2]
    rfl
  | succ m ih =>
    intro j t rest h1 h2
    rw [List.replicate_succ, List.cons_append, scanEntity, if_pos rfl,
      ih (j + 1) t rest h1 h2, show j + 1 + m = j + (m + 1) by omega]

/-- Decoding a well-formed tag array recovers exactly its span list. -/
theorem decodeLoop_wellFormed {n : Nat} :
    ∀ (l : List Span) (pos : Nat), SortedFrom pos n l →
      (∀ sp ∈ l, sp.color ∈ catalogColors) →
      decodeLoop (wellFormed pos n l) pos = l := by
  intro l
  induction l with
  | nil =>
    intro pos _ _
    rw [wellFormed, ← List.append_nil (List.replicate (n - pos) "O"),
      decodeLoop_replicate_O, decodeLoop_nil]
  | cons sp rest ih =>
    intro pos hs hc
    obtain ⟨hps, hlt, hsn, hrest⟩ := hs
    have hlook : lookupColor (colorToName sp.color) = some sp.color :=
      catalog_lookup_colorToName sp.color (hc sp (List.mem_cons_self sp rest))
    have hcr : ∀ s ∈ rest, s.color ∈ catalogColors :=
      fun s h => hc s (List.mem_cons_of_mem _ h)
    rw [wellFormed, decodeLoop_replicate_O,
      show pos + (sp.start - pos) = sp.start by omega]
    unfold spanTags
    by_cases h1 : sp.stop - sp.start = 1
    · rw [if_pos h1, List.singleton_append, decodeLoop_S hlook,
        show sp.start + 1 = sp.stop by omega, ih sp.stop hrest hcr]
    · rw [if_neg h1, List.cons_append, List.append_assoc,
        List.singleton_append, decodeLoop_B hlook,
        scanEntity_through (colorToName sp.color) (sp.stop - sp.start - 2)
          (sp.start + 1) (wellFormed sp.stop n rest),
        show sp.start + 1 + (sp.stop - sp.start - 2) + 1 = sp.stop by omega,
        ih sp.stop hrest hcr]

/-- Claim C1: for every line length and every left-to-right sorted list of
non-overlapping, in-bounds spans labeled with non-sentinel catalog colors,
decoding the tag array produced by `save_to_bio`'s single-line encoder
yields exactly the same spans: same bounds, same labels, same order. -/
theorem C1_roundtrip (n : Nat) (spans : List Span)
    (hs : SortedFrom 0 n spans)
    (hc : ∀ sp ∈ spans, sp.color ∈ catalogColors) :
    decodeTags (encodeLine n spans) = spans := by
  rw [decodeTags, encodeLine_eq_wellFormed hs hc]
  exact decodeLoop_wellFormed spans 0 hs hc

/-- Witness for C1 at a concrete input: two spans on a 5-character line. -/
theorem C1_roundtrip_witness :
    decodeTags (encodeLine 5 [⟨0, 2, "red"⟩, ⟨3, 4, "yellow"⟩])
      = [⟨0, 2, "red"⟩, ⟨3, 4, "yellow"⟩] :=
  C1_roundtrip 5 [⟨0, 2, "red"⟩, ⟨3, 4, "yellow"⟩]
    ⟨by decide, by decide, by decide, by decide, by decide, by decide, trivial⟩
    (by decide)

/-- Claim C2 counterexample: the tag array `["B-VOLTAGE","O","E-VOLTAGE"]`
does not decode to zero spans — the dangling `B-VOLTAGE` produces the span
`[0,1)` (the unconditional `tag_add` of lines 399-401). -/
theorem C2_counterexample :
    decodeTags ["B-VOLTAGE", "O", "E-VOLTAGE"] = [⟨0, 1, "red"⟩] ∧
      ([⟨0, 1, "red"⟩] : List Span) ≠ [] := by
  constructor
  · simp [decodeTags, decodeLoop, scanEntity, splitDash, splitDashAux,
      lookupColor, bio_to_color, LABEL_CONFIG, bioTagName, pyUpper]
  · decide

/-- Claim C2 (amended): during decode, a `B-<name>` (name in the catalog)
whose forward scan accumulates `k` `I-<name>` tags and is then interrupted
by a pattern-breaking tag before any `E-<name>` still emits a span covering
the `B` position and the accumulated `I` positions (the breaking position
excluded), and scanning resumes at the breaking position; in particular
`["B-L","O","E-L"]` decodes to the one span `[0,1)` for label `L`, with the
orphaned `E-L` dropped. -/
theorem C2_dangling_B {name color : String} (h : lookupColor name = some color)
    (k i : Nat) (t : String) (rest : List String)
    (h1 : t ≠ "I-" ++ name) (h2 : t ≠ "E-" ++ name) :
    decodeLoop (("B-" ++ name) :: (List.replicate k ("I-" ++ name) ++ t :: rest)) i
      = ⟨i, i + 1 + k, color⟩ :: decodeLoop (t :: rest) (i + 1 + k) := by
  rw [decodeLoop_B h, scanEntity_break name k (i + 1) t rest h1 h2]

/-- Witness for the amended C2 at the concrete malformed array. -/
theorem C2_dangling_B_witness :
    decodeLoop (("B-" ++ "VOLTAGE") ::
        (List.replicate 0 ("I-" ++ "VOLTAGE") ++ "O" :: ["E-VOLTAGE"])) 0
      = ⟨0, 1, "red"⟩ :: decodeLoop ("O" :: ["E-VOLTAGE"]) 1 :=
  C2_dangling_B (by decide) 0 0 "O" ["E-VOLTAGE"] (by decide) (by decide)

/-! ## The CSV row loop of `load_from_csv` (lines 309-343) -/

/-- Python `str.strip()` (lines 310-311): drop leading and trailing
whitespace characters. -/
def pyStrip (s : String) : String :=
  String.mk
    (((s.data.dropWhile Char.isWhitespace).reverse.dropWhile
        Char.isWhitespace).reverse)

/-- Whitespace tokenizer accumulator: `acc` holds the current token
reversed. -/
def tokenizeAux : List Char → List Char → List String
  | acc, [] => if acc = [] then [] else [String.mk acc.reverse]
  | acc, c :: cs =>
    if c.isWhitespace then
      if acc = [] then tokenizeAux [] cs
      else String.mk acc.reverse :: tokenizeAux [] cs
    else tokenizeAux (c :: acc) cs

/-- Python `str.split()` with no argument (line 317): split on whitespace
runs, no empty tokens. -/
def pySplit (s : String) : List String := tokenizeAux [] s.data

/-- Python `xs[-1] = f(xs[-1])` on a nonempty list (lines 335-336). -/
def modifyLast {α : Type} (f : α → α) : List α → List α
  | [] => []
  | [x] => [f x]
  | x :: xs => x :: modifyLast f xs

/-- One iteration of the `for row in rows` loop of `load_from_csv`
(lines 309-343) over the accumulated `(all_lines, all_tags)` state:
strip both cells, drop empty-text rows, then classify the row shape —
per-line when token count equals character count, per-character fragment
when both are 1 (checked second), otherwise the all-`O` fallback
`all_tags.append(['O' * len(text)])` of line 343. -/
def processRow (st : List String × List (List String)) (row : String × String) :
    List String × List (List String) :=
  let text := pyStrip row.1
  let tags_str := pyStrip row.2
  if text = "" then st
  else
    let tags : List String := if tags_str = "" then [] else pySplit tags_str
    if tags.length = text.length then
      (st.1 ++ [text], st.2 ++ [tags])
    else if tags.length = 1 ∧ text.length = 1 then
      if st.1 = [] then (st.1 ++ [text], st.2 ++ [[tags_str]])
      else if text = "" ∨ text = "\n" then
        (st.1 ++ [""], st.2 ++ [([] : List String)])
      else
        (modifyLast (fun s => s ++ text) st.1,
         modifyLast (fun ts => ts ++ [tags_str]) st.2)
    else
      (st.1 ++ [text], st.2 ++ [[String.mk (List.replicate text.length 'O')]])

/-- The whole row loop, starting from empty `all_lines` / `all_tags`
(lines 306-307). -/
def processRows (rows : List (String × String)) :
    List String × List (List String) :=
  rows.foldl processRow ([], [])

/-- Claim C3 counterexample: the row with text `"ab"` and tags `"X"`
yields the one-element tag list `["OO"]` (line 343 appends
`['O' * len(text)]`), not `["O","O"]`. -/
theorem C3_counterexample :
    processRows [("ab", "X")] = (["ab"], [["OO"]]) ∧
      (["OO"] : List String) ≠ ["O", "O"] := by
  constructor <;> decide

/-- Claim C3 (amended): a shape-mismatched row (stripped text nonempty,
token count unequal to character count, and not the 1-token/1-character
shape) is kept as one finished line, but its appended tag value is the
single-element list holding one string of `len(text)` `'O'` characters,
not `len(text)` copies of `"O"`. -/
theorem C3_fallback_single_O (st : List String × List (List String))
    (text tags : String) (hne : pyStrip text ≠ "")
    (hmis : (if pyStrip tags = "" then [] else pySplit (pyStrip tags)).length
      ≠ (pyStrip text).length)
    (hfrag : ¬((if pyStrip tags = "" then [] else pySplit (pyStrip tags)).length = 1
      ∧ (pyStrip text).length = 1)) :
    processRow st (text, tags)
      = (st.1 ++ [pyStrip text],
         st.2 ++ [[String.mk (List.replicate (pyStrip text).length 'O')]]) := by
  simp only [processRow]
  rw [if_neg hne, if_neg hmis, if_neg hfrag]

/-- Witness for the amended C3 at text `"ab"`, tags `"X"`. -/
theorem C3_fallback_single_O_witness :
    processRow ([], []) ("ab", "X")
      = ([] ++ [pyStrip "ab"],
         [] ++ [[String.mk (List.replicate (pyStrip "ab").length 'O')]]) :=
  C3_fallback_single_O ([], []) "ab" "X" (by decide) (by decide) (by decide)

/-- Claim C4 counterexample: two successive 1-character/1-token rows do not
accumulate into one line `"ab"` with tags `["X","Y"]`; each becomes its own
finished line, because `len(tags) == len(text)` (1 = 1) matches first. -/
theorem C4_counterexample :
    processRows [("a", "X"), ("b", "Y")] = (["a", "b"], [["X"], ["Y"]]) ∧
      ((["a", "b"], ([["X"], ["Y"]] : List (List String)))
        ≠ (["ab"], [["X", "Y"]])) := by
  constructor <;> decide

/-- Claim C4 (amended): a row whose stripped tags split into exactly one
token and whose stripped text is exactly one character always satisfies the
per-line shape check first (`len(tags) == len(text)` is `1 == 1`), so it is
appended as its own finished line with its one-token tag list; the stateful
per-character fragment branch (lines 323-336) is unreachable. -/
theorem C4_per_char_rows_as_lines (st : List String × List (List String))
    (text tags : String) (htext : (pyStrip text).length = 1)
    (htok : (if pyStrip tags = "" then [] else pySplit (pyStrip tags)).length = 1) :
    processRow st (text, tags)
      = (st.1 ++ [pyStrip text],
         st.2 ++ [if pyStrip tags = "" then [] else pySplit (pyStrip tags)]) := by
  have hne : pyStrip text ≠ "" := by
    intro h
    rw [h] at htext
    exact absurd htext (by decide)
  simp only [processRow]
  rw [if_neg hne, if_pos (htok.trans htext.symm)]

/-- Witness for the amended C4 at text `"a"`, tags `"X"`. -/
theorem C4_per_char_rows_as_lines_witness :
    processRow ([], []) ("a", "X")
      = ([] ++ [pyStrip "a"],
         [] ++ [if pyStrip "X" = "" then [] else pySplit (pyStrip "X")]) :=
  C4_per_char_rows_as_lines ([], []) "a" "X" (by decide) (by decide)

theorem dropWhile_head_false {α : Type} {p : α → Bool} :
    ∀ {l : List α} {a : α} {t : List α}, l.dropWhile p = a :: t → p a = false := by
  intro l
  induction l with
  | nil => intro a t h; cases h
  | cons c cs ih =>
    intro a t h
    rw [List.dropWhile_cons] at h
    by_cases hp : p c = true
    · rw [if_pos hp] at h
      exact ih h
    · rw [if_neg hp] at h
      injection h with h1 _
      rw [h1] at hp
      exact Bool.not_eq_true _ |>.mp hp

theorem pyStrip_has_nonws {s : String} (h : pyStrip s ≠ "") :
    ∃ c ∈ (pyStrip s).data, c.isWhitespace = false := by
  unfold pyStrip at h ⊢
  cases hl : (s.data.dropWhile Char.isWhitespace).reverse.dropWhile
      Char.isWhitespace with
  | nil => rw [hl] at h; exact absurd (by decide) h
  | cons a t =>
    refine ⟨a, ?_, dropWhile_head_false hl⟩
    simp

theorem processRow_drop (st : List String × List (List String))
    (row : String × String) (h : pyStrip row.1 = "") :
    processRow st row = st := by
  simp only [processRow]
  rw [if_pos h]

theorem processRow_lines (st : List String × List (List String))
    (row : String × String) :
    (processRow st row).1 = st.1 ∨
      ((processRow st row).1 = st.1 ++ [pyStrip row.1] ∧ pyStrip row.1 ≠ "") := by
  simp only [processRow]
  by_cases h0 : pyStrip row.1 = ""
  · rw [if_pos h0]; exact Or.inl rfl
  · rw [if_neg h0]
    by_cases h1 : (if pyStrip row.2 = "" then []
        else pySplit (pyStrip row.2)).length = (pyStrip row.1).length
    · rw [if_pos h1]; exact Or.inr ⟨rfl, h0⟩
    · rw [if_neg h1]
      by_cases h2 : (if pyStrip row.2 = "" then []
          else pySplit (pyStrip row.2)).length = 1 ∧ (pyStrip row.1).length = 1
      · exact absurd (h2.1.trans h2.2.symm) h1
      · rw [if_neg h2]; exact Or.inr ⟨rfl, h0⟩

theorem processRows_lines :
    ∀ (rows : List (String × String)) (st : List String × List (List String))
      (l : String), l ∈ (rows.foldl processRow st).1 →
      l ∈ st.1 ∨ ∃ row ∈ rows, l = pyStrip row.1 ∧ pyStrip row.1 ≠ "" := by
  intro rows
  induction rows with
  | nil => intro st l h; exact Or.inl h
  | cons r rs ih =>
    intro st l h
    rw [List.foldl_cons] at h
    rcases ih (processRow st r) l h with h1 | h1
    · rcases processRow_lines st r with h2 | h2
      · rw [h2] at h1; exact Or.inl h1
      · rw [h2.1] at h1
        rcases List.mem_append.mp h1 with h3 | h3
        · exact Or.inl h3
        · refine Or.inr ⟨r, List.mem_cons_self r rs, ?_, h2.2⟩
          rw [List.mem_singleton] at h3
          exact h3
    · rcases h1 with ⟨row, hrow, heq⟩
      exact Or.inr ⟨row, List.mem_cons_of_mem _ hrow, heq⟩

/-- Claim C9: the row loop strips both cells before shape classification and
silently drops rows whose stripped text is empty; consequently every parsed
line equals some row's stripped text cell and contains a non-whitespace
character (so it is neither empty nor whitespace-only). -/
theorem C9_strip_and_drop :
    (∀ (rows : List (String × String)) (l : String),
        l ∈ (processRows rows).1 →
          (∃ c ∈ l.data, c.isWhitespace = false) ∧
            ∃ row ∈ rows, l = pyStrip row.1) ∧
      (∀ (st : List String × List (List String)) (row : String × String),
          pyStrip row.1 = "" → processRow st row = st) := by
  constructor
  · intro rows l hl
    rcases processRows_lines rows ([], []) l hl with h1 | h1
    · cases h1
    · rcases h1 with ⟨row, hrow, heq, hne⟩
      subst heq
      exact ⟨pyStrip_has_nonws hne, row, hrow, rfl⟩
  · exact processRow_drop

/-- Witness for C9: the line parsed from a padded cell is its stripped text,
contains a non-blank character, and a whitespace-only row is dropped. -/
theorem C9_strip_and_drop_witness :
    ((∃ c ∈ ("ab" : String).data, c.isWhitespace = false) ∧
        ∃ row ∈ [((" ab " : String), ("XY" : String))], "ab" = pyStrip row.1) ∧
      processRow ([], []) ("  ", "X") = ([], []) :=
  ⟨C9_strip_and_drop.1 [(" ab ", "XY")] "ab" (by decide),
   C9_strip_and_drop.2 ([], []) ("  ", "X") (by decide)⟩

/-! ## Encoding detection (`load_from_csv` lines 243-273) -/

/-- Byte-structure model of Python's `utf-8` codec (RFC 3629): decode one
scalar value from the front of the byte list, or fail. -/
def utf8Step : List Nat → Option (Nat × List Nat)
  | [] => none
  | b :: rest =>
    if b ≤ 0x7F then some (b, rest)
    else if 0xC2 ≤ b ∧ b ≤ 0xDF then
      match rest with
      | b2 :: r2 =>
        if 0x80 ≤ b2 ∧ b2 ≤ 0xBF then
          some ((b - 0xC0) * 0x40 + (b2 - 0x80), r2)
        else none
      | [] => none
    else if 0xE0 ≤ b ∧ b ≤ 0xEF then
      match rest with
      | b2 :: b3 :: r3 =>
        if ((if b = 0xE0 then 0xA0 else 0x80) ≤ b2
              ∧ b2 ≤ (if b = 0xED then 0x9F else 0xBF))
            ∧ 0x80 ≤ b3 ∧ b3 ≤ 0xBF then
          some ((b - 0xE0) * 0x1000 + (b2 - 0x80) * 0x40 + (b3 - 0x80), r3)
        else none
      | _ => none
    else if 0xF0 ≤ b ∧ b ≤ 0xF4 then
      match rest with
      | b2 :: b3 :: b4 :: r4 =>
        if ((if b = 0xF0 then 0x90 else 0x80) ≤ b2
              ∧ b2 ≤ (if b = 0xF4 then 0x8F else 0xBF))
            ∧ 0x80 ≤ b3 ∧ b3 ≤ 0xBF ∧ 0x80 ≤ b4 ∧ b4 ≤ 0xBF then
          some ((b - 0xF0) * 0x40000 + (b2 - 0x80) * 0x1000
            + (b3 - 0x80) * 0x40 + (b4 - 0x80), r4)
        else none
      | _ => none
    else none

/-- Byte-structure model of Python's `gbk` codec: ASCII single bytes, or a
lead byte `0x81..0xFE` followed by a trail byte `0x40..0xFE` other than
`0x7F`.  Decoded values are placeholder code points; only success or
failure matters to the detector. -/
def gbkStep : List Nat → Option (Nat × List Nat)
  | [] => none
  | b :: rest =>
    if b ≤ 0x7F then some (b, rest)
    else if 0x81 ≤ b ∧ b ≤ 0xFE then
      match rest with
      | b2 :: r2 =>
        if (0x40 ≤ b2 ∧ b2 ≤ 0xFE) ∧ b2 ≠ 0x7F then
          some (0x10000 + b * 0x100 + b2, r2)
        else none
      | [] => none
    else none

/-- Byte-structure model of Python's `gb2312` codec: ASCII single bytes, or
a lead byte `0xA1..0xF7` with a trail byte `0xA1..0xFE`. -/
def gb2312Step : List Nat → Option (Nat × List Nat)
  | [] => none
  | b :: rest =>
    if b ≤ 0x7F then some (b, rest)
    else if 0xA1 ≤ b ∧ b ≤ 0xF7 then
      match rest with
      | b2 :: r2 =>
        if 0xA1 ≤ b2 ∧ b2 ≤ 0xFE then some (0x20000 + b * 0x100 + b2, r2)
        else none
      | [] => none
    else none

/-- `encodings = ['utf-8', 'gbk', 'gb2312']` (line 244). -/
def encodingsTried : List String := ["utf-8", "gbk", "gb2312"]

def stepOf : String → List Nat → Option (Nat × List Nat)
  | "utf-8" => utf8Step
  | "gbk" => gbkStep
  | "gb2312" => gb2312Step
  | _ => fun _ => none

/-- Incomplete-input classifier for the incremental UTF-8 decoder: the byte
list is a proper prefix of one valid sequence, so a `final=False` decode
buffers it instead of raising (an invalid byte raises immediately). -/
def pendUtf8 : List Nat → Bool
  | [] => true
  | [b] => decide ((0xC2 ≤ b ∧ b ≤ 0xDF) ∨ (0xE0 ≤ b ∧ b ≤ 0xEF)
      ∨ (0xF0 ≤ b ∧ b ≤ 0xF4))
  | [b, b2] => decide
      (((0xE0 ≤ b ∧ b ≤ 0xEF)
          ∧ (if b = 0xE0 then 0xA0 else 0x80) ≤ b2
          ∧ b2 ≤ (if b = 0xED then 0x9F else 0xBF))
        ∨ ((0xF0 ≤ b ∧ b ≤ 0xF4)
          ∧ (if b = 0xF0 then 0x90 else 0x80) ≤ b2
          ∧ b2 ≤ (if b = 0xF4 then 0x8F else 0xBF)))
  | [b, b2, b3] => decide
      ((0xF0 ≤ b ∧ b ≤ 0xF4)
        ∧ ((if b = 0xF0 then 0x90 else 0x80) ≤ b2
          ∧ b2 ≤ (if b = 0xF4 then 0x8F else 0xBF))
        ∧ 0x80 ≤ b3 ∧ b3 ≤ 0xBF)
  | _ => false

/-- Incomplete-input classifier for the incremental GBK decoder: a lone
lead byte is buffered. -/
def pendGbk : List Nat → Bool
  | [] => true
  | [b] => decide (0x81 ≤ b ∧ b ≤ 0xFE)
  | _ => false

/-- Incomplete-input classifier for the incremental GB2312 decoder. -/
def pendGb2312 : List Nat → Bool
  | [] => true
  | [b] => decide (0xA1 ≤ b ∧ b ≤ 0xF7)
  | _ => false

def pendOf : String → List Nat → Bool
  | "utf-8" => pendUtf8
  | "gbk" => pendGbk
  | "gb2312" => pendGb2312
  | _ => fun _ => false

/-- One `decoder.decode(data, final=False)` call of an incremental decoder:
decode complete sequences greedily from the front, reporting the number of
characters produced and the buffered incomplete tail, or `none` on an
invalid sequence.  `fuel` only bounds the recursion; every character
consumes at least one byte, so `fuel = input length` never truncates. -/
def greedy (step : List Nat → Option (Nat × List Nat))
    (pend : List Nat → Bool) : Nat → List Nat → Option (Nat × List Nat)
  | _, [] => some (0, [])
  | 0, b :: bs => if pend (b :: bs) then some (0, b :: bs) else none
  | fuel + 1, b :: bs =>
    match step (b :: bs) with
    | some pr => (greedy step pend fuel pr.2).map (fun qr => (qr.1 + 1, qr.2))
    | none => if pend (b :: bs) then some (0, b :: bs) else none

/-- `TextIOWrapper._CHUNK_SIZE`: text I/O reads and decodes the underlying
byte stream in chunks of 8192 bytes. -/
def CHUNK_SIZE : Nat := 8192

/-- CPython's `TextIOWrapper.read(1024)` under one candidate encoding
(line 253): while fewer than 1024 characters are decoded and the stream is
not exhausted, read the next 8192-byte chunk and feed it, after the
buffered incomplete tail `carry`, to the incremental decoder with
`final=False`; once 1024 characters are available, stop — later chunks are
never read or validated.  At end of stream the final decode raises exactly
when an incomplete tail remains.  `fuel` only bounds the recursion: each
chunk consumes at least one byte, so `fuel = bytes.length + 1` never hits
the fuel-exhausted arm. -/
def readLoop (step : List Nat → Option (Nat × List Nat))
    (pend : List Nat → Bool) : Nat → List Nat → List Nat → Nat → Bool
  | 0, _, _, _ => false
  | fuel + 1, carry, bytes, got =>
    if 1024 ≤ got then true
    else if bytes.isEmpty then carry.isEmpty
    else
      match greedy step pend (carry ++ bytes.take CHUNK_SIZE).length
          (carry ++ bytes.take CHUNK_SIZE) with
      | none => false
      | some pr =>
        readLoop step pend fuel pr.2 (bytes.drop CHUNK_SIZE) (got + pr.1)

/-- Success of the sample read `f.read(1024)` of lines 251-257 under one
candidate encoding. -/
def sampleOk (enc : String) (bytes : List Nat) : Bool :=
  readLoop (stepOf enc) (pendOf enc) (bytes.length + 1) [] bytes 0

/-- The detection loop of lines 248-265: the first encoding whose sample
read succeeds is selected. -/
def detectEncoding (bytes : List Nat) : Option String :=
  encodingsTried.find? (fun enc => sampleOk enc bytes)

/-- Decoding the entire stream under a candidate encoding (the full read
performed by the CSV pass of lines 273-288 with the selected encoding):
succeeds when no invalid sequence occurs and no incomplete tail remains at
end of stream. -/
def fullOk (enc : String) (bytes : List Nat) : Bool :=
  ((greedy (stepOf enc) (pendOf enc) bytes.length bytes).map
    (fun pr => pr.2.isEmpty)).getD false

/-- Outcome of `load_from_csv` through its encoding phase (lines 243-273):
a missing file raises (the re-raise at line 264 sits outside the `try` of
line 272, so `FileNotFoundError` escapes the function); detection failure
returns the typed encoding-failure message (lines 267-270); a decode error
during the full read surfaces in the generic handler of lines 418-423 (the
interpolated `str(e)` is abstracted as the exception name); otherwise the
file is read with the selected encoding (its decoded text feeds the CSV
layer, modelled separately). -/
inductive EncPhase where
  | raisedFileNotFound : EncPhase
  | encodingFailure : String → EncPhase
  | decodeError : String → EncPhase
  | decoded : String → EncPhase
deriving DecidableEq

def encPhase : Option (List Nat) → EncPhase
  | none => EncPhase.raisedFileNotFound
  | some bytes =>
    match detectEncoding bytes with
    | none => EncPhase.encodingFailure
        ("无法读取文件，已尝试编码：" ++ String.intercalate ", " encodingsTried)
    | some enc =>
      if fullOk enc bytes then EncPhase.decoded enc
      else EncPhase.decodeError "加载CSV文件时出错：UnicodeDecodeError"

theorem greedy_ascii_shift (step : List Nat → Option (Nat × List Nat))
    (pend : List Nat → Bool) (hstep : ∀ l, step (97 :: l) = some (97, l)) :
    ∀ (k fuel : Nat) (tail : List Nat),
      greedy step pend (k + fuel) (List.replicate k 97 ++ tail)
        = (greedy step pend fuel tail).map (fun pr => (pr.1 + k, pr.2)) := by
  intro k
  induction k with
  | zero =>
    intro fuel tail
    rw [Nat.zero_add, List.replicate_zero, List.nil_append]
    cases greedy step pend fuel tail with
    | none => rfl
    | some pr => rfl
  | succ m ih =>
    intro fuel tail
    rw [show m + 1 + fuel = (m + fuel) + 1 by omega, List.replicate_succ,
      List.cons_append, greedy, hstep]
    dsimp only
    rw [ih fuel tail]
    cases greedy step pend fuel tail with
    | none => rfl
    | some pr =>
      show some (pr.1 + m + 1, pr.2) = some (pr.1 + (m + 1), pr.2)
      rw [Nat.add_assoc]

theorem greedy_ascii_exact (step : List Nat → Option (Nat × List Nat))
    (pend : List Nat → Bool) (hstep : ∀ l, step (97 :: l) = some (97, l))
    (k : Nat) : greedy step pend k (List.replicate k 97) = some (k, []) := by
  have h := greedy_ascii_shift step pend hstep k 0 []
  rw [List.append_nil, Nat.add_zero] at h
  rw [h]
  show some (0 + k, []) = some (k, [])
  rw [Nat.zero_add]

theorem find?_sampleOk_cons (bytes : List Nat) (e : String)
    (rest : List String) :
    (e :: rest).find? (fun enc => sampleOk enc bytes)
      = if sampleOk e bytes = true then some e
        else rest.find? (fun enc => sampleOk enc bytes) := by
  rw [List.find?_cons]
  cases h : sampleOk e bytes <;> simp [h]

/-- The byte stream of the C5 counterexample: one full 8192-byte text-I/O
chunk of ASCII `'a'`s followed by the GBK two-byte character `0xB0 0xA1`,
which is no valid UTF-8 sequence.  `f.read(1024)` reads and validates only
the first chunk, which already yields 8192 characters. -/
def bytesStar : List Nat := List.replicate 8192 97 ++ [0xB0, 0xA1]

theorem encPhase_decode_error (bytes : List Nat) (enc : String)
    (hdet : detectEncoding bytes = some enc)
    (hfull : fullOk enc bytes = false) :
    encPhase (some bytes)
      = EncPhase.decodeError "加载CSV文件时出错：UnicodeDecodeError" := by
  simp [encPhase, hdet, hfull]

/-- Claim C5 counterexample: `bytesStar` fails to decode under UTF-8 as a
whole and decodes fully under GBK, yet the detector selects UTF-8 — the
invalid tail bytes lie beyond the one 8192-byte chunk that `f.read(1024)`
reads — and the load then fails in the generic handler instead of being
read with GBK. -/
theorem C5_counterexample :
    detectEncoding bytesStar = some "utf-8" ∧
      fullOk "utf-8" bytesStar = false ∧
      fullOk "gbk" bytesStar = true ∧
      encPhase (some bytesStar)
        = EncPhase.decodeError "加载CSV文件时出错：UnicodeDecodeError" := by
  have htake : bytesStar.take CHUNK_SIZE = List.replicate 8192 97 := by
    unfold bytesStar CHUNK_SIZE
    exact List.take_left' (by rw [List.length_replicate])
  have hdrop : bytesStar.drop CHUNK_SIZE = [0xB0, 0xA1] := by
    unfold bytesStar CHUNK_SIZE
    exact List.drop_left' (by rw [List.length_replicate])
  have hlen : bytesStar.length = 8192 + 2 := by
    unfold bytesStar
    rw [List.length_append, List.length_replicate]
    rfl
  have hsample : sampleOk "utf-8" bytesStar = true := by
    show readLoop utf8Step pendUtf8 (bytesStar.length + 1) [] bytesStar 0 = true
    rw [readLoop, if_neg (by omega : ¬ ((1024:Nat) ≤ 0)),
      if_neg (by decide : ¬ (bytesStar.isEmpty = true)),
      List.nil_append, htake, List.length_replicate,
      greedy_ascii_exact utf8Step pendUtf8 (fun l => rfl) 8192]
    dsimp only
    rw [hdrop, show bytesStar.length = 8193 + 1 by rw [hlen], readLoop,
      if_pos (by omega : (1024:Nat) ≤ 0 + 8192)]
  have hdet : detectEncoding bytesStar = some "utf-8" := by
    unfold detectEncoding encodingsTried
    exact List.find?_cons_of_pos _
      (show (fun enc => sampleOk enc bytesStar) "utf-8" = true from hsample)
  have hfu : fullOk "utf-8" bytesStar = false := by
    have h1 : greedy (stepOf "utf-8") (pendOf "utf-8") bytesStar.length bytesStar
        = none := by
      rw [show stepOf "utf-8" = utf8Step from rfl,
        show pendOf "utf-8" = pendUtf8 from rfl, hlen,
        show bytesStar = List.replicate 8192 97 ++ [0xB0, 0xA1] from rfl,
        greedy_ascii_shift utf8Step pendUtf8 (fun l => rfl) 8192 2 [0xB0, 0xA1],
        show greedy utf8Step pendUtf8 2 [0xB0, 0xA1] = none from rfl]
      rfl
    unfold fullOk
    rw [h1]
    rfl
  have hgb : fullOk "gbk" bytesStar = true := by
    have h2 : greedy (stepOf "gbk") (pendOf "gbk") bytesStar.length bytesStar
        = some (1 + 8192, []) := by
      rw [show stepOf "gbk" = gbkStep from rfl,
        show pendOf "gbk" = pendGbk from rfl, hlen,
        show bytesStar = List.replicate 8192 97 ++ [0xB0, 0xA1] from rfl,
        greedy_ascii_shift gbkStep pendGbk (fun l => rfl) 8192 2 [0xB0, 0xA1],
        show greedy gbkStep pendGbk 2 [0xB0, 0xA1] = some (1, []) from rfl]
      rfl
    unfold fullOk
    rw [h2]
    rfl
  exact ⟨hdet, hfu, hgb, encPhase_decode_error bytesStar "utf-8" hdet hfu⟩

/-- Claim C5 (amended): the detector tries UTF-8, then GBK, then GB2312,
and selects the first candidate whose `f.read(1024)` sample read succeeds;
the sample covers only the 8192-byte chunks actually read (reading stops
once 1024 characters are decoded), not necessarily the entire stream;
loading fails with the encoding-failure message naming the attempted
encodings exactly when all three sample reads fail. -/
theorem C5_sample_detection (bytes : List Nat) :
    (sampleOk "utf-8" bytes = true → detectEncoding bytes = some "utf-8") ∧
      (sampleOk "utf-8" bytes = false → sampleOk "gbk" bytes = true →
        detectEncoding bytes = some "gbk") ∧
      (sampleOk "utf-8" bytes = false → sampleOk "gbk" bytes = false →
        sampleOk "gb2312" bytes = true →
        detectEncoding bytes = some "gb2312") ∧
      (encPhase (some bytes)
          = EncPhase.encodingFailure "无法读取文件，已尝试编码：utf-8, gbk, gb2312"
        ↔ sampleOk "utf-8" bytes = false ∧ sampleOk "gbk" bytes = false ∧
            sampleOk "gb2312" bytes = false) := by
  have hmsg : ("无法读取文件，已尝试编码：" ++ String.intercalate ", " encodingsTried)
      = "无法读取文件，已尝试编码：utf-8, gbk, gb2312" := by decide
  refine ⟨?_, ?_, ?_, ?_⟩
  · intro h1
    unfold detectEncoding encodingsTried
    rw [find?_sampleOk_cons, if_pos h1]
  · intro h1 h2
    unfold detectEncoding encodingsTried
    rw [find?_sampleOk_cons, if_neg (by rw [h1]; exact Bool.false_ne_true),
      find?_sampleOk_cons, if_pos h2]
  · intro h1 h2 h3
    unfold detectEncoding encodingsTried
    rw [find?_sampleOk_cons, if_neg (by rw [h1]; exact Bool.false_ne_true),
      find?_sampleOk_cons, if_neg (by rw [h2]; exact Bool.false_ne_true),
      find?_sampleOk_cons, if_pos h3]
  · constructor
    · intro h
      cases hdet : detectEncoding bytes with
      | some enc =>
        exfalso
        simp only [encPhase, hdet] at h
        cases hfull : fullOk enc bytes with
        | false => simp [hfull] at h
        | true => simp [hfull] at h
      | none =>
        have hall := List.find?_eq_none.mp hdet
        refine ⟨?_, ?_, ?_⟩
        · simpa using hall "utf-8" (by decide)
        · simpa using hall "gbk" (by decide)
        · simpa using hall "gb2312" (by decide)
    · intro ⟨h1, h2, h3⟩
      have hdet : detectEncoding bytes = none := by
        unfold detectEncoding encodingsTried
        rw [List.find?_eq_none]
        intro enc henc
        fin_cases henc <;> simp [h1, h2, h3]
      simp only [encPhase, hdet]
      rw [hmsg]

/-- Witness for the amended C5: `[0xB0, 0xA1]` fails the UTF-8 sample read
and is selected as GBK; `[0xFF]` fails all three sample reads and yields
the encoding-failure message. -/
theorem C5_sample_detection_witness :
    detectEncoding [0xB0, 0xA1] = some "gbk" ∧
      encPhase (some [0xFF])
        = EncPhase.encodingFailure "无法读取文件，已尝试编码：utf-8, gbk, gb2312" :=
  ⟨(C5_sample_detection [0xB0, 0xA1]).2.1 (by decide) (by decide),
   (C5_sample_detection [0xFF]).2.2.2.mpr ⟨by decide, by decide, by decide⟩⟩

/-- Claim C7: loading a non-existent file does not produce the typed
`(False, message)` result — the `FileNotFoundError` re-raised at line 264
escapes `load_from_csv`, because the detection loop sits outside the
`try`/`except` of lines 272-423 whose handler would convert it. -/
theorem C7_missing_file_raises :
    encPhase none = EncPhase.raisedFileNotFound := rfl


/-! ## CSV schema (`save_to_bio` line 198, `load_from_csv` lines 277-285) -/

/-- The header row written by `save_to_bio` line 198:
`writer.writerow(['文本', '标签'])`. -/
def saveHeader : List String := ["文本", "标签"]

/-- The required-column check of `load_from_csv` lines 277-285: the error
message for the first missing column, `none` when both are present. -/
def checkColumns (fieldnames : List String) : Option String :=
  if "文本" ∉ fieldnames then some "CSV文件中没有找到\x27文本\x27列"
  else if "标签" ∉ fieldnames then some "CSV文件中没有找到\x27标签\x27列，请重新导入"
  else none

/-- Claim C6 counterexample: the header is not `["text", "tags"]`, and a
file whose columns are literally `text` and `tags` is rejected with the
missing-text-column error. -/
theorem C6_counterexample :
    saveHeader ≠ ["text", "tags"] ∧
      checkColumns ["text", "tags"] = some "CSV文件中没有找到\x27文本\x27列" := by
  constructor <;> decide

/-- Claim C6 (amended): serialization writes the header with the literal
column names `文本` and `标签`, and parsing requires exactly those names,
failing with a message naming the missing column when either is absent. -/
theorem C6_chinese_columns :
    saveHeader = ["文本", "标签"] ∧
      ∀ fieldnames : List String,
        (checkColumns fieldnames = none
          ↔ "文本" ∈ fieldnames ∧ "标签" ∈ fieldnames) ∧
          ("文本" ∉ fieldnames →
            checkColumns fieldnames = some "CSV文件中没有找到\x27文本\x27列") ∧
          ("文本" ∈ fieldnames → "标签" ∉ fieldnames →
            checkColumns fieldnames
              = some "CSV文件中没有找到\x27标签\x27列，请重新导入") := by
  refine ⟨rfl, fun f => ⟨?_, ?_, ?_⟩⟩
  · by_cases h1 : "文本" ∈ f
    · by_cases h2 : "标签" ∈ f
      · simp [checkColumns, h1, h2]
      · simp [checkColumns, h1, h2]
    · simp [checkColumns, h1]
  · intro h
    simp [checkColumns, h]
  · intro h1 h2
    simp [checkColumns, h1, h2]

/-- Witness for the amended C6: each single-column file is rejected with
the message naming the other, missing column. -/
theorem C6_chinese_columns_witness :
    checkColumns ["标签"] = some "CSV文件中没有找到\x27文本\x27列" ∧
      checkColumns ["文本"] = some "CSV文件中没有找到\x27标签\x27列，请重新导入" :=
  ⟨(C6_chinese_columns.2 ["标签"]).2.1 (by decide),
   (C6_chinese_columns.2 ["文本"]).2.2 (by decide) (by decide)⟩

/-! ## The widget tag state and `annotate_selection` (lines 33-54, 89-98) -/

/-- Per-line widget tag state: which characters carry which color tag. -/
abbrev TagState := String → Nat → Bool

/-- `text_widget.tag_add(color, start, end)` on one line. -/
def tag_add (st : TagState) (color : String) (s e : Nat) : TagState :=
  fun c i => if c = color ∧ s ≤ i ∧ i < e then true else st c i

/-- `text_widget.tag_remove(color, start, end)` on one line. -/
def tag_remove (st : TagState) (color : String) (s e : Nat) : TagState :=
  fun c i => if c = color ∧ s ≤ i ∧ i < e then false else st c i

/-- `self.color_list` (line 25): every configured color, sentinel included. -/
def color_list : List String := LABEL_CONFIG.map (fun cfg => cfg.1)

/-- `BioAnnotator._remove_tags_from_range` (lines 89-98): remove every
configured color from the range. -/
def remove_tags_from_range (st : TagState) (s e : Nat) : TagState :=
  color_list.foldl (fun acc color => tag_remove acc color s e) st

/-- `BioAnnotator.annotate_selection` (lines 33-54) on the selection
`[s, e)`: clear every color there, then add the new color unless it is the
sentinel `'white'`. -/
def annotate_selection (st : TagState) (color : String) (s e : Nat) : TagState :=
  let st1 := remove_tags_from_range st s e
  if color ≠ "white" then tag_add st1 color s e else st1

theorem tag_add_apply (st : TagState) (color : String) (s e : Nat)
    (c : String) (i : Nat) :
    tag_add st color s e c i
      = if c = color ∧ s ≤ i ∧ i < e then true else st c i := rfl

theorem foldRemove_apply (s e : Nat) :
    ∀ (L : List String) (st : TagState) (c : String) (i : Nat),
      (L.foldl (fun acc color => tag_remove acc color s e) st) c i
        = if c ∈ L ∧ s ≤ i ∧ i < e then false else st c i := by
  intro L
  induction L with
  | nil => intro st c i; simp
  | cons hd t ih =>
    intro st c i
    rw [List.foldl_cons, ih]
    by_cases h1 : c ∈ t ∧ s ≤ i ∧ i < e
    · rw [if_pos h1, if_pos ⟨List.mem_cons_of_mem _ h1.1, h1.2⟩]
    · rw [if_neg h1]
      show (if c = hd ∧ s ≤ i ∧ i < e then false else st c i)
        = if c ∈ hd :: t ∧ s ≤ i ∧ i < e then false else st c i
      by_cases h2 : c = hd ∧ s ≤ i ∧ i < e
      · rw [if_pos h2, if_pos ⟨List.mem_cons.mpr (Or.inl h2.1), h2.2⟩]
      · rw [if_neg h2, if_neg (fun hc => by
          rcases List.mem_cons.mp hc.1 with hh | hh
          · exact h2 ⟨hh, hc.2⟩
          · exact h1 ⟨hh, hc.2⟩)]

theorem remove_tags_apply (st : TagState) (s e : Nat) (c : String) (i : Nat) :
    remove_tags_from_range st s e c i
      = if c ∈ color_list ∧ s ≤ i ∧ i < e then false else st c i :=
  foldRemove_apply s e color_list st c i

/-- Claim C8: after two successive single-span annotations on one line,
every character in the overlap carries the second label and no other
configured label; every character of the first range outside the second
range still carries the first label (clearing is per-character, independent
of earlier span boundaries). -/
theorem C8_overwrite (st : TagState) (c1 c2 : String) (s1 e1 s2 e2 : Nat)
    (hc1 : c1 ≠ "white") (hc2 : c2 ≠ "white") :
    (∀ i : Nat, s1 ≤ i → i < e1 → s2 ≤ i → i < e2 →
        annotate_selection (annotate_selection st c1 s1 e1) c2 s2 e2 c2 i = true ∧
          ∀ c ∈ color_list, c ≠ c2 →
            annotate_selection (annotate_selection st c1 s1 e1) c2 s2 e2 c i
              = false) ∧
      ∀ i : Nat, s1 ≤ i → i < e1 → ¬(s2 ≤ i ∧ i < e2) →
        annotate_selection (annotate_selection st c1 s1 e1) c2 s2 e2 c1 i
          = true := by
  have hexp2 : annotate_selection (annotate_selection st c1 s1 e1) c2 s2 e2
      = tag_add (remove_tags_from_range (annotate_selection st c1 s1 e1) s2 e2)
          c2 s2 e2 := by
    unfold annotate_selection
    rw [if_pos hc2]
  have hexp1 : annotate_selection st c1 s1 e1
      = tag_add (remove_tags_from_range st s1 e1) c1 s1 e1 := by
    unfold annotate_selection
    rw [if_pos hc1]
  constructor
  · intro i h1 h2 h3 h4
    constructor
    · rw [hexp2, tag_add_apply, if_pos ⟨rfl, h3, h4⟩]
    · intro c hc hne
      rw [hexp2, tag_add_apply, if_neg (fun hx => hne hx.1),
        remove_tags_apply, if_pos ⟨hc, h3, h4⟩]
  · intro i h1 h2 h3
    rw [hexp2, tag_add_apply, if_neg (fun hx => h3 hx.2),
      remove_tags_apply, if_neg (fun hx => h3 hx.2),
      hexp1, tag_add_apply, if_pos ⟨rfl, h1, h2⟩]

/-- Witness for C8: `red` on `[0,3)` then `yellow` on `[2,5)`; position 2
carries only `yellow`, position 1 still carries `red`. -/
theorem C8_overwrite_witness :
    annotate_selection (annotate_selection (fun _ _ => false) "red" 0 3)
        "yellow" 2 5 "yellow" 2 = true ∧
      annotate_selection (annotate_selection (fun _ _ => false) "red" 0 3)
        "yellow" 2 5 "red" 2 = false ∧
      annotate_selection (annotate_selection (fun _ _ => false) "red" 0 3)
        "yellow" 2 5 "red" 1 = true :=
  ⟨((C8_overwrite (fun _ _ => false) "red" "yellow" 0 3 2 5 (by decide)
      (by decide)).1 2 (by decide) (by decide) (by decide) (by decide)).1,
   ((C8_overwrite (fun _ _ => false) "red" "yellow" 0 3 2 5 (by decide)
      (by decide)).1 2 (by decide) (by decide) (by decide) (by decide)).2
     "red" (by decide) (by decide),
   (C8_overwrite (fun _ _ => false) "red" "yellow" 0 3 2 5 (by decide)
      (by decide)).2 1 (by decide) (by decide) (by omega)⟩

/-! ## Malformed stored ranges during save (`save_to_bio` lines 166-192) -/

/-- One stored range's pass in `save_to_bio` (lines 166-192), after the
`"row.col"` index strings have been parsed to integers: skip ranges whose
endpoints lie on different lines (line 177), whose row is outside the
document (lines 185-186), or whose columns exceed the line's length
(lines 188-189); otherwise apply the BIO tags to the addressed row. -/
def applyRange (result : List (List String))
    (start_row start_col end_row end_col : Int) (tagName : String) :
    List (List String) :=
  if start_row ≠ end_row then result
  else
    let row_idx : Int := start_row - 1
    if row_idx < 0 ∨ (result.length : Int) ≤ row_idx then result
    else
      let row := result.getD row_idx.toNat []
      if (row.length : Int) ≤ start_col ∨ (row.length : Int) < end_col then
        result
      else
        result.set row_idx.toNat
          (apply_bio_tags row start_col.toNat end_col.toNat tagName)

/-- Claim C10: every malformed stored range — endpoints on different lines,
row index outside the document, or start/end column beyond the line's
length — is skipped: the tag matrix is returned unchanged, so the range
contributes no B/I/E/S tags and the characters it would have covered keep
their previous (default `O`) tags; and no pass ever changes the number of
lines, so save never addresses a line out of bounds. -/
theorem C10_save_skips_malformed :
    (∀ (result : List (List String)) (sr sc er ec : Int) (tagName : String),
        (sr ≠ er ∨ sr - 1 < 0 ∨ (result.length : Int) ≤ sr - 1 ∨
          ((result.getD (sr - 1).toNat []).length : Int) ≤ sc ∨
          ((result.getD (sr - 1).toNat []).length : Int) < ec) →
        applyRange result sr sc er ec tagName = result) ∧
      ∀ (result : List (List String)) (sr sc er ec : Int) (tagName : String),
        (applyRange result sr sc er ec tagName).length = result.length := by
  constructor
  · intro result sr sc er ec tagName h
    simp only [applyRange]
    split_ifs with h1 h2 h3
    · rfl
    · rfl
    · rfl
    · rcases h with h | h | h | h | h
      · exact absurd h h1
      · exact absurd (Or.inl h) h2
      · exact absurd (Or.inr h) h2
      · exact absurd (Or.inl h) h3
      · exact absurd (Or.inr h) h3
  · intro result sr sc er ec tagName
    simp only [applyRange]
    split_ifs <;> simp [List.length_set]

/-- Witness for C10: a range spanning two lines leaves the matrix
unchanged. -/
theorem C10_save_skips_malformed_witness :
    applyRange [["O", "O"]] 1 0 2 1 "VOLTAGE" = [["O", "O"]] :=
  C10_save_skips_malformed.1 [["O", "O"]] 1 0 2 1 "VOLTAGE" (Or.inl (by decide))

end NERTool
